import Mathlib

/-!
Bounded error-message formatting: `src/src/fmtutils.c`.

A shallow embedding of `pcap_fmt_errmsg_for_errno` / `pcap_vfmt_errmsg_for_errno`.

* Memory reachable through `errbuf` is a finite list of bytes; index `i` of the
  list is the byte `errbuf[i]`.  The declared capacity `errbuflen` is a separate
  number, so a store beyond the capacity is visible in the model whenever the
  region is longer than the capacity.
* `size_t` arithmetic is arithmetic modulo `2 ^ 64`.
* The C library formatter is not part of the repository: the primary message
  enters as the byte sequence that `vsnprintf` would produce with unlimited
  room, and the formats the routine itself uses (`%s`, `%d`) are rendered by
  `vformat`.
* The four build configurations selected by the preprocessor are the four
  constructors of `Platform`; the platform primitives they call are arguments
  of the constructors.
-/

namespace Fmtutils

/-! ## The embedding of the source -/

/-- Region of memory addressed through a `char *`. -/
abbrev Mem := List UInt8

/-- Number of values of `size_t` (a 64-bit unsigned integer). -/
def SIZE_MOD : Nat := 18446744073709551616

/-- Largest size of an object (`PTRDIFF_MAX` on a 64-bit machine). -/
def PTRDIFF_MAX : Nat := 9223372036854775807

/-- Addition in `size_t`. -/
def size_add (a b : Nat) : Nat := (a + b) % SIZE_MOD

/-- Subtraction in `size_t` (wraps around below zero). -/
def size_sub (a b : Nat) : Nat := (a + (SIZE_MOD - b % SIZE_MOD)) % SIZE_MOD

/-- Bytes of an ASCII string literal. -/
def ascii (s : String) : List UInt8 := s.toList.map (fun ch => ch.toNat.toUInt8)

/-- The C string stored at the start of a region: the bytes before the first NUL
(the scan stops at the end of the modelled region). -/
def c_string (mem : Mem) : List UInt8 := mem.takeWhile (fun b => b != 0)

/-- `strlen(errbuf)`. -/
def strlen (mem : Mem) : Nat := (c_string mem).length

/-- A sequence of single byte stores `mem[off] = b0; mem[off+1] = b1; ...`. -/
def store (mem : Mem) (off : Nat) : List UInt8 → Mem
  | [] => mem
  | b :: bs => store (mem.set off b) (off + 1) bs

/-- One decimal digit as an ASCII byte. -/
def digit (d : Nat) : UInt8 := (48 + d % 10).toUInt8

/-- Decimal digits of `n`, most significant first (`fuel` bounds the number of digits). -/
def dec_digits : Nat → Nat → List UInt8
  | 0, _ => []
  | fuel + 1, n => if n < 10 then [digit n] else dec_digits fuel (n / 10) ++ [digit n]

/-- Rendering of the conversion `%d`. -/
def fmt_d (n : Int) : List UInt8 :=
  if n < 0 then 45 :: dec_digits (n.natAbs + 1) n.natAbs else dec_digits (n.natAbs + 1) n.natAbs

/-- Argument of a format conversion. -/
inductive FmtArg where
  | str (s : List UInt8)
  | int (n : Int)

/-- Rendering of a format with its arguments, given unlimited room, for the
conversions used in `fmtutils.c`: `%s` (a C string, read up to its NUL), `%d`
and `%%`. -/
def vformat : List Char → List FmtArg → List UInt8
  | [], _ => []
  | '%' :: 's' :: rest, FmtArg.str s :: ap => c_string s ++ vformat rest ap
  | '%' :: 'd' :: rest, FmtArg.int n :: ap => fmt_d n ++ vformat rest ap
  | '%' :: '%' :: rest, ap => 37 :: vformat rest ap
  | ch :: rest, ap => ch.toNat.toUInt8 :: vformat rest ap

/-- Bounded write of a rendering `r` at offset `off` with room `size`, as done
by `snprintf`/`vsnprintf`: nothing for `size = 0`, otherwise the first
`size - 1` bytes of `r` followed by a NUL. -/
def vsnprintf (mem : Mem) (off size : Nat) (r : List UInt8) : Mem :=
  if size = 0 then mem else store mem off (r.take (size - 1) ++ [0])

/-- Build configuration of `fmtutils.c`, with what the platform supplies to the
selected branch.  None of it is part of the repository, so it is an argument:

* `HAVE__WCSERROR_S`: `wcserror_s errnum` is the status returned by
  `_wcserror_s` and the UTF-16 string it leaves in `utf_16_errbuf`;
  `transcode w room` is the UTF-8 text chosen for the UTF-16 string `w` when
  `room` bytes are available; `use_utf_8` is the process-wide encoding flag;
  `code_page s` is the text of `s` in the local code page.
* `HAVE_GNU_STRERROR_R`: `strerror_r errnum` is the string whose address the
  GNU-style `strerror_r` returns.
* `HAVE_POSIX_STRERROR_R`: `strerror_text errnum room` is the status returned
  by the POSIX-style `strerror_r` and the text it chooses for a buffer of
  `room` bytes; `EINVAL` and `ERANGE` are the values of the two `errno.h`
  constants.
* `NEITHER`: `pcap_strerror errnum` is the string returned by `pcap_strerror`. -/
inductive Platform where
  | HAVE__WCSERROR_S (wcserror_s : Int → Int × List UInt16)
      (transcode : List UInt16 → Nat → List UInt8)
      (use_utf_8 : Bool) (code_page : List UInt8 → List UInt8)
  | HAVE_GNU_STRERROR_R (strerror_r : Int → List UInt8)
  | HAVE_POSIX_STRERROR_R (strerror_text : Int → Nat → Int × List UInt8) (EINVAL ERANGE : Int)
  | NEITHER (pcap_strerror : Int → List UInt8)

/-- Modelled from the spec: `utf_16le_to_utf_8_truncated(utf_16, utf_8, utf_8_len)`
is called by the routine and defined nowhere in the repository.  The spec:
"transcode that to UTF-8 into the remaining space, truncating at a UTF-8
character boundary if it doesn't fit".  Here: a bounded, NUL-terminated store at
offset `utf_8` of the text `transcode utf_16 utf_8_len`. -/
def utf_16le_to_utf_8_truncated (transcode : List UInt16 → Nat → List UInt8)
    (utf_16 : List UInt16) (mem : Mem) (utf_8 utf_8_len : Nat) : Mem :=
  vsnprintf mem utf_8 utf_8_len (transcode utf_16 utf_8_len)

/-- Modelled from the spec: `utf_8_to_acp_truncated(errbuf)` is called by the
routine and defined nowhere in the repository.  The spec: "convert the buffer in
place from UTF-8 to the legacy code page, truncating safely if needed".  Here:
the string held in `errbuf` is replaced, from offset 0, by its text in the code
page followed by a NUL. -/
def utf_8_to_acp_truncated (code_page : List UInt8 → List UInt8) (errbuf : Mem) : Mem :=
  store errbuf 0 (code_page (c_string errbuf) ++ [0])

/-- The POSIX-style `strerror_r(errnum, buf, buflen)` of the C library, "guaranteed
to fill in the buffer, but ... not guaranteed to succeed": a bounded,
NUL-terminated store at offset `buf` of the text the platform chooses, and the
status. -/
def posix_strerror_r (strerror_text : Int → Nat → Int × List UInt8) (errnum : Int)
    (mem : Mem) (buf buflen : Nat) : Int × Mem :=
  ((strerror_text errnum buflen).1, vsnprintf mem buf buflen (strerror_text errnum buflen).2)

/-- Lines 87-103 of `pcap_vfmt_errmsg_for_errno`: format the primary message
(whose unbounded rendering is `r`), measure it, and append the delimiter when
there is room for it.  The result is the buffer and, unless the routine returns
early, the pointer `p` (as an offset from `errbuf`) and `errbuflen_remaining`. -/
def format_and_delimit (errbuf : Mem) (errbuflen : Nat) (r : List UInt8) :
    Mem × Option (Nat × Nat) :=
  let errbuf := vsnprintf errbuf 0 errbuflen r
  let msglen := strlen errbuf
  if size_add msglen 3 > errbuflen then
    (errbuf, none)
  else
    let p := msglen
    let errbuflen_remaining := size_sub errbuflen msglen
    let errbuf := errbuf.set p 58
    let p := p + 1
    let errbuf := errbuf.set p 32
    let p := p + 1
    let errbuf := errbuf.set p 0
    let errbuflen_remaining := size_sub errbuflen_remaining 2
    (errbuf, some (p, errbuflen_remaining))

/-- Lines 105-176 of `pcap_vfmt_errmsg_for_errno`: append the string for the
error code at `p`, in the branch selected by the build configuration. -/
def append_errno_string (P : Platform) (errbuf : Mem) (p errbuflen_remaining : Nat)
    (errnum : Int) : Mem :=
  match P with
  | Platform.HAVE__WCSERROR_S wcserror_s transcode use_utf_8 code_page =>
    let utf_16_errbuf := (wcserror_s errnum).2
    let err := (wcserror_s errnum).1
    if err ≠ 0 then
      vsnprintf errbuf p errbuflen_remaining (vformat "Error %d".toList [FmtArg.int errnum])
    else
      let errbuf := utf_16le_to_utf_8_truncated transcode utf_16_errbuf errbuf p
        errbuflen_remaining
      if !use_utf_8 then
        utf_8_to_acp_truncated code_page errbuf
      else
        errbuf
  | Platform.HAVE_GNU_STRERROR_R strerror_r =>
    vsnprintf errbuf p errbuflen_remaining
      (vformat "%s".toList [FmtArg.str (strerror_r errnum)])
  | Platform.HAVE_POSIX_STRERROR_R strerror_text EINVAL ERANGE =>
    let err := (posix_strerror_r strerror_text errnum errbuf p errbuflen_remaining).1
    let errbuf := (posix_strerror_r strerror_text errnum errbuf p errbuflen_remaining).2
    if err = EINVAL then
      vsnprintf errbuf p errbuflen_remaining
        (vformat "Unknown error: %d".toList [FmtArg.int errnum])
    else if err = ERANGE then
      vsnprintf errbuf p errbuflen_remaining
        (vformat "Message for error %d is too long".toList [FmtArg.int errnum])
    else
      errbuf
  | Platform.NEITHER pcap_strerror =>
    vsnprintf errbuf p errbuflen_remaining
      (vformat "%s".toList [FmtArg.str (pcap_strerror errnum)])

/-- The routine `pcap_vfmt_errmsg_for_errno(errbuf, errbuflen, errnum, fmt, ap)`;
`r` is the unbounded rendering of `fmt` with `ap`.  The result is the memory
behind `errbuf` after the call. -/
def pcap_vfmt_errmsg_for_errno (P : Platform) (errbuf : Mem) (errbuflen : Nat)
    (errnum : Int) (r : List UInt8) : Mem :=
  match format_and_delimit errbuf errbuflen r with
  | (errbuf, none) => errbuf
  | (errbuf, some (p, errbuflen_remaining)) =>
    append_errno_string P errbuf p errbuflen_remaining errnum

/-- The variadic entry point `pcap_fmt_errmsg_for_errno`: it captures its
arguments and delegates. -/
def pcap_fmt_errmsg_for_errno (P : Platform) (errbuf : Mem) (errbuflen : Nat)
    (errnum : Int) (r : List UInt8) : Mem :=
  pcap_vfmt_errmsg_for_errno P errbuf errbuflen errnum r

/-! ## Definitions used to state the properties -/

/-- The primary message as `strlen` finds it after the bounded formatting with
capacity `c`: the string held in the first `c - 1` bytes of the rendering. -/
def stored_primary (c : Nat) (r : List UInt8) : List UInt8 := c_string (r.take (c - 1))

/-- Contract of the code-page conversion, which is not told the capacity of the
buffer it rewrites: when it is in use (`use_utf_8` is false), the converted text
is no longer than the text it replaces. -/
def Platform.code_page_fits : Platform → Prop
  | Platform.HAVE__WCSERROR_S _ _ use_utf_8 code_page =>
    use_utf_8 = false → ∀ s : List UInt8, (code_page s).length ≤ s.length
  | _ => True

/-- The string expected in the buffer after the error text has been appended at
the end of `pre` with `room` bytes available. -/
def appended_string (P : Platform) (errnum : Int) (pre : List UInt8) (room : Nat) :
    List UInt8 :=
  match P with
  | Platform.HAVE__WCSERROR_S wcserror_s transcode use_utf_8 code_page =>
    if (wcserror_s errnum).1 ≠ 0 then
      pre ++ c_string ((vformat "Error %d".toList [FmtArg.int errnum]).take (room - 1))
    else if !use_utf_8 then
      c_string (code_page (pre ++
        c_string ((transcode (wcserror_s errnum).2 room).take (room - 1))))
    else
      pre ++ c_string ((transcode (wcserror_s errnum).2 room).take (room - 1))
  | Platform.HAVE_GNU_STRERROR_R strerror_r =>
    pre ++ c_string ((vformat "%s".toList [FmtArg.str (strerror_r errnum)]).take (room - 1))
  | Platform.HAVE_POSIX_STRERROR_R strerror_r EINVAL ERANGE =>
    if (strerror_r errnum room).1 = EINVAL then
      pre ++ c_string ((vformat "Unknown error: %d".toList [FmtArg.int errnum]).take (room - 1))
    else if (strerror_r errnum room).1 = ERANGE then
      pre ++ c_string ((vformat "Message for error %d is too long".toList
        [FmtArg.int errnum]).take (room - 1))
    else
      pre ++ c_string ((strerror_r errnum room).2.take (room - 1))
  | Platform.NEITHER pcap_strerror =>
    pre ++ c_string ((vformat "%s".toList [FmtArg.str (pcap_strerror errnum)]).take (room - 1))

/-- The text-returning primitive of a build that has one: the GNU-style
`strerror_r` or `pcap_strerror`. -/
def Platform.returned_text : Platform → Option (Int → List UInt8)
  | Platform.HAVE_GNU_STRERROR_R strerror_r => some strerror_r
  | Platform.NEITHER pcap_strerror => some pcap_strerror
  | _ => none

/-- Lines 94-103 on sizes alone: the test `msglen + 3 > errbuflen` and, when it
fails, the offset of `p` and the value of `errbuflen_remaining`, all computed in
`size_t`. -/
def delimiter_sizes (msglen errbuflen : Nat) : Option (Nat × Nat) :=
  if size_add msglen 3 > errbuflen then none
  else some (msglen + 1 + 1, size_sub (size_sub errbuflen msglen) 2)

/-- State of a recogniser of well-formed UTF-8: `start` between characters,
`more n` when `n` further continuation bytes are due, and one state for each
lead byte that restricts the range of the byte after it. -/
inductive Utf8State where
  | start
  | more1
  | more2
  | more3
  | afterE0
  | afterED
  | afterF0
  | afterF4
  | bad
  deriving DecidableEq

/-- One byte of the recogniser of well-formed UTF-8 (Unicode, table 3-7). -/
def utf8_step (s : Utf8State) (b : UInt8) : Utf8State :=
  let n := b.toNat
  match s with
  | Utf8State.start =>
    if n < 128 then Utf8State.start
    else if 194 ≤ n ∧ n ≤ 223 then Utf8State.more1
    else if n = 224 then Utf8State.afterE0
    else if n = 237 then Utf8State.afterED
    else if 225 ≤ n ∧ n ≤ 239 then Utf8State.more2
    else if n = 240 then Utf8State.afterF0
    else if 241 ≤ n ∧ n ≤ 243 then Utf8State.more3
    else if n = 244 then Utf8State.afterF4
    else Utf8State.bad
  | Utf8State.more1 => if 128 ≤ n ∧ n ≤ 191 then Utf8State.start else Utf8State.bad
  | Utf8State.more2 => if 128 ≤ n ∧ n ≤ 191 then Utf8State.more1 else Utf8State.bad
  | Utf8State.more3 => if 128 ≤ n ∧ n ≤ 191 then Utf8State.more2 else Utf8State.bad
  | Utf8State.afterE0 => if 160 ≤ n ∧ n ≤ 191 then Utf8State.more1 else Utf8State.bad
  | Utf8State.afterED => if 128 ≤ n ∧ n ≤ 159 then Utf8State.more1 else Utf8State.bad
  | Utf8State.afterF0 => if 144 ≤ n ∧ n ≤ 191 then Utf8State.more2 else Utf8State.bad
  | Utf8State.afterF4 => if 128 ≤ n ∧ n ≤ 143 then Utf8State.more2 else Utf8State.bad
  | Utf8State.bad => Utf8State.bad

/-- A byte sequence is well-formed UTF-8 when the recogniser ends between two characters. -/
def utf8_valid (l : List UInt8) : Bool :=
  decide (l.foldl utf8_step Utf8State.start = Utf8State.start)

/-! ## Sample inputs -/

/-- A GNU-style build whose `strerror_r` always answers with the text of `ENOENT`. -/
def sample_gnu : Platform :=
  Platform.HAVE_GNU_STRERROR_R (fun _ => ascii "No such file or directory")

/-- A GNU-style build whose `strerror_r` answers with a text that starts with a
two-byte UTF-8 character. -/
def sample_gnu_accented : Platform :=
  Platform.HAVE_GNU_STRERROR_R (fun _ => [195, 137] ++ ascii "chec")

/-- A POSIX-style build (Linux values of `EINVAL` and `ERANGE`) whose `strerror_r`
rejects every code with `EINVAL` and leaves an empty string. -/
def sample_posix : Platform :=
  Platform.HAVE_POSIX_STRERROR_R (fun _ _ => (22, [])) 22 34

/-- A Windows-style build in code-page mode whose conversion keeps the text as it is. -/
def sample_windows : Platform :=
  Platform.HAVE__WCSERROR_S (fun _ => (0, [])) (fun _ _ => ascii "No such file or directory")
    false (fun s => s)

/-- A buffer of `n` bytes filled with `0xAA`. -/
def sample_buffer (n : Nat) : Mem := List.replicate n 170

/-- The rendering of the format `cannot open %s` with the argument `foo.txt`. -/
def sample_message : List UInt8 :=
  vformat "cannot open %s".toList [FmtArg.str (ascii "foo.txt")]

/-! ## Stores and C strings -/

theorem store_length (bs : List UInt8) : ∀ (mem : Mem) (off : Nat),
    (store mem off bs).length = mem.length := by
  induction bs with
  | nil => intro mem off; rfl
  | cons b bs ih => intro mem off; simp [store, ih]

theorem store_drop (bs : List UInt8) : ∀ (mem : Mem) (off k : Nat),
    off + bs.length ≤ k → (store mem off bs).drop k = mem.drop k := by
  induction bs with
  | nil => intro mem off k _; rfl
  | cons b bs ih =>
    intro mem off k h
    simp only [List.length_cons] at h
    simp only [store]
    rw [ih (mem.set off b) (off + 1) k (by omega)]
    exact List.drop_set_of_lt b mem (by omega)

theorem store_cons (a : UInt8) (bs : List UInt8) : ∀ (mem : Mem) (off : Nat),
    store (a :: mem) (off + 1) bs = a :: store mem off bs := by
  induction bs with
  | nil => intro mem off; rfl
  | cons b bs ih => intro mem off; simp [store, ih]

theorem store_zero (bs : List UInt8) : ∀ (post : Mem),
    bs.length ≤ post.length → store post 0 bs = bs ++ post.drop bs.length := by
  induction bs with
  | nil => intro post _; rfl
  | cons b bs ih =>
    intro post h
    cases post with
    | nil => simp at h
    | cons x post =>
      simp only [List.length_cons, Nat.add_le_add_iff_right] at h
      simp [store, store_cons, ih post h]

theorem store_append (pre post bs : List UInt8) :
    store (pre ++ post) pre.length bs = pre ++ store post 0 bs := by
  induction pre with
  | nil => rfl
  | cons a pre ih => simp [store_cons, ih]

theorem store_at (pre post bs : List UInt8) (h : bs.length ≤ post.length) :
    store (pre ++ post) pre.length bs = pre ++ (bs ++ post.drop bs.length) := by
  rw [store_append, store_zero bs post h]

theorem c_string_nul (X rest : List UInt8) : c_string (X ++ 0 :: rest) = c_string X := by
  induction X with
  | nil => simp [c_string]
  | cons x X ih =>
    simp only [c_string] at ih
    by_cases hx : x = 0
    · subst hx; simp [c_string]
    · simp [c_string, List.takeWhile_cons, hx, ih]

theorem c_string_append (a b : List UInt8) (ha : ∀ x ∈ a, x ≠ 0) :
    c_string (a ++ b) = a ++ c_string b := by
  induction a with
  | nil => rfl
  | cons x a ih =>
    have hx : x ≠ 0 := ha x (List.mem_cons_self x a)
    have ih2 := ih (fun y hy => ha y (List.mem_cons_of_mem x hy))
    simp only [c_string] at ih2
    simp [c_string, List.takeWhile_cons, hx, ih2]

theorem c_string_nonul (mem : Mem) : ∀ x ∈ c_string mem, x ≠ 0 := by
  intro x hx
  have := List.mem_takeWhile_imp hx
  simpa using this

theorem c_string_of_nonul (a : List UInt8) (ha : ∀ x ∈ a, x ≠ 0) : c_string a = a := by
  have := c_string_append a [] ha
  simpa [c_string] using this

theorem c_string_idem (mem : Mem) : c_string (c_string mem) = c_string mem :=
  c_string_of_nonul _ (c_string_nonul mem)

theorem c_string_length_le (mem : Mem) : (c_string mem).length ≤ mem.length := by
  unfold c_string
  exact (List.takeWhile_sublist _).length_le

theorem c_string_cons_ne (x : UInt8) (mem : Mem) (hx : x ≠ 0) :
    c_string (x :: mem) = x :: c_string mem := by
  simp [c_string, List.takeWhile_cons, hx]

/-- A region whose string is shorter than the region holds a NUL right after the string. -/
theorem mem_split : ∀ (mem : Mem), strlen mem < mem.length →
    mem = c_string mem ++ 0 :: mem.drop (strlen mem + 1) := by
  intro mem
  induction mem with
  | nil => intro h; simp at h
  | cons x mem ih =>
    intro h
    by_cases hx : x = 0
    · subst hx; simp [c_string, strlen]
    · have e : c_string (x :: mem) = x :: c_string mem := c_string_cons_ne x mem hx
      have e2 : strlen (x :: mem) = strlen mem + 1 := by simp [strlen, e]
      rw [e2] at h
      simp only [List.length_cons, Nat.add_lt_add_iff_right] at h
      have := ih h
      rw [e, e2]
      simp only [List.cons_append, List.drop_succ_cons]
      exact congrArg (List.cons x) this

theorem vsnprintf_at (pre post r : List UInt8) (size : Nat) (h1 : 1 ≤ size)
    (h2 : size ≤ post.length) :
    vsnprintf (pre ++ post) pre.length size r
      = pre ++ (r.take (size - 1) ++ 0 :: post.drop ((r.take (size - 1)).length + 1)) := by
  have hs : ¬ size = 0 := by omega
  have hl : (r.take (size - 1) ++ [0]).length ≤ post.length := by
    simp only [List.length_append, List.length_take, List.length_singleton]; omega
  rw [vsnprintf, if_neg hs, store_at pre post _ hl]
  simp

theorem vsnprintf_string (pre post r : List UInt8) (size : Nat) (h1 : 1 ≤ size)
    (h2 : size ≤ post.length) (hpre : ∀ x ∈ pre, x ≠ 0) :
    c_string (vsnprintf (pre ++ post) pre.length size r)
      = pre ++ c_string (r.take (size - 1)) := by
  rw [vsnprintf_at pre post r size h1 h2, c_string_append _ _ hpre, c_string_nul]

theorem vsnprintf_length (mem : Mem) (off size : Nat) (r : List UInt8) :
    (vsnprintf mem off size r).length = mem.length := by
  unfold vsnprintf
  split
  · rfl
  · exact store_length _ _ _

theorem vsnprintf_drop (mem : Mem) (off size k : Nat) (r : List UInt8) (h : off + size ≤ k) :
    (vsnprintf mem off size r).drop k = mem.drop k := by
  unfold vsnprintf
  split
  · rfl
  · apply store_drop
    simp only [List.length_append, List.length_take, List.length_singleton]
    omega

/-! ## The first half of the routine -/

theorem size_add_small (a b : Nat) (h : a + b < SIZE_MOD) : size_add a b = a + b := by
  unfold size_add
  exact Nat.mod_eq_of_lt h

theorem size_sub_small (a b : Nat) (hb : b ≤ a) (ha : a < SIZE_MOD) : size_sub a b = a - b := by
  unfold size_sub
  have hb2 : b % SIZE_MOD = b := Nat.mod_eq_of_lt (by omega)
  rw [hb2]
  have : a + (SIZE_MOD - b) = (a - b) + SIZE_MOD := by omega
  rw [this, Nat.add_mod_right]
  exact Nat.mod_eq_of_lt (by omega)

theorem stored_primary_length_lt (c : Nat) (r : List UInt8) (h : 1 ≤ c) :
    (stored_primary c r).length < c := by
  have := c_string_length_le (r.take (c - 1))
  simp only [List.length_take] at this
  unfold stored_primary
  omega

theorem stored_primary_nonul (c : Nat) (r : List UInt8) : ∀ x ∈ stored_primary c r, x ≠ 0 :=
  c_string_nonul _

theorem vsnprintf_primary (errbuf : Mem) (c : Nat) (r : List UInt8) (h1 : 1 ≤ c)
    (h2 : c ≤ errbuf.length) :
    c_string (vsnprintf errbuf 0 c r) = stored_primary c r := by
  have := vsnprintf_string [] errbuf r c h1 h2 (by simp)
  simpa [stored_primary] using this

theorem format_and_delimit_zero (errbuf : Mem) (r : List UInt8)
    (hL : errbuf.length ≤ PTRDIFF_MAX) :
    format_and_delimit errbuf 0 r = (errbuf, none) := by
  have hlen := c_string_length_le errbuf
  have hadd : size_add (strlen errbuf) 3 = strlen errbuf + 3 := by
    apply size_add_small
    simp only [strlen, SIZE_MOD, PTRDIFF_MAX] at *
    omega
  simp [format_and_delimit, vsnprintf, hadd]

theorem format_and_delimit_early (errbuf : Mem) (c : Nat) (r : List UInt8) (h1 : 1 ≤ c)
    (h2 : c ≤ errbuf.length) (hL : errbuf.length ≤ PTRDIFF_MAX)
    (h : c < (stored_primary c r).length + 3) :
    format_and_delimit errbuf c r = (vsnprintf errbuf 0 c r, none) := by
  have hs : strlen (vsnprintf errbuf 0 c r) = (stored_primary c r).length := by
    rw [strlen, vsnprintf_primary errbuf c r h1 h2]
  have hlt := stored_primary_length_lt c r h1
  have hadd : size_add (stored_primary c r).length 3 = (stored_primary c r).length + 3 := by
    apply size_add_small
    simp only [SIZE_MOD, PTRDIFF_MAX] at *
    omega
  simp only [format_and_delimit, hs, hadd]
  rw [if_pos h]

theorem format_and_delimit_room (errbuf : Mem) (c : Nat) (r : List UInt8)
    (h2 : c ≤ errbuf.length) (hL : errbuf.length ≤ PTRDIFF_MAX)
    (h : (stored_primary c r).length + 3 ≤ c) :
    ∃ post : List UInt8,
      format_and_delimit errbuf c r
        = ((stored_primary c r ++ [58, 32]) ++ post,
            some ((stored_primary c r ++ [58, 32]).length, c - (stored_primary c r).length - 2))
      ∧ ((stored_primary c r ++ [58, 32]) ++ post).length = errbuf.length
      ∧ ((stored_primary c r ++ [58, 32]) ++ post).drop c = errbuf.drop c := by
  have h1 : 1 ≤ c := by omega
  have hp := vsnprintf_primary errbuf c r h1 h2
  have hs : strlen (vsnprintf errbuf 0 c r) = (stored_primary c r).length := by
    rw [strlen, hp]
  have hlen := vsnprintf_length errbuf 0 c r
  have hadd : size_add (stored_primary c r).length 3 = (stored_primary c r).length + 3 := by
    apply size_add_small
    simp only [SIZE_MOD, PTRDIFF_MAX] at *
    omega
  have hsub1 : size_sub c (stored_primary c r).length = c - (stored_primary c r).length := by
    apply size_sub_small
    · omega
    · simp only [SIZE_MOD, PTRDIFF_MAX] at *
      omega
  have hsub2 : size_sub (c - (stored_primary c r).length) 2
      = c - (stored_primary c r).length - 2 := by
    apply size_sub_small
    · omega
    · simp only [SIZE_MOD, PTRDIFF_MAX] at *
      omega
  have hsplit := mem_split (vsnprintf errbuf 0 c r) (by rw [hs, hlen]; omega)
  rw [hp, hs] at hsplit
  have hstore : (((vsnprintf errbuf 0 c r).set (stored_primary c r).length 58).set
      ((stored_primary c r).length + 1) 32).set ((stored_primary c r).length + 1 + 1) 0
      = store (vsnprintf errbuf 0 c r) (stored_primary c r).length [58, 32, 0] := rfl
  have hpost : ([58, 32, 0] : List UInt8).length
      ≤ (0 :: (vsnprintf errbuf 0 c r).drop ((stored_primary c r).length + 1)).length := by
    simp only [List.length_cons, List.length_nil, List.length_drop, hlen]
    omega
  have hst := store_at (stored_primary c r)
    (0 :: (vsnprintf errbuf 0 c r).drop ((stored_primary c r).length + 1)) [58, 32, 0] hpost
  rw [← hsplit] at hst
  refine ⟨0 :: (vsnprintf errbuf 0 c r).drop ((stored_primary c r).length + 1 + 2), ?_, ?_, ?_⟩
  · simp only [format_and_delimit, hs, hadd, hsub1, hsub2]
    rw [if_neg (by omega), hstore, hst]
    simp
  · have := congrArg List.length hst
    rw [store_length, hlen] at this
    rw [this]
    simp
  · have e : (stored_primary c r ++ [58, 32]) ++
        (0 :: (vsnprintf errbuf 0 c r).drop ((stored_primary c r).length + 1 + 2))
        = store (vsnprintf errbuf 0 c r) (stored_primary c r).length [58, 32, 0] := by
      rw [hst]; simp
    rw [e, store_drop _ _ _ _ (by simp only [List.length_cons, List.length_nil]; omega)]
    exact vsnprintf_drop errbuf 0 c c r (by omega)

/-! ## The second half of the routine -/

theorem vsnprintf_shape (pre post r : List UInt8) (size : Nat) (h1 : 1 ≤ size)
    (h2 : size ≤ post.length) :
    ∃ post2 : List UInt8, vsnprintf (pre ++ post) pre.length size r = pre ++ post2
      ∧ post2.length = post.length := by
  refine ⟨_, vsnprintf_at pre post r size h1 h2, ?_⟩
  simp only [List.length_append, List.length_take, List.length_cons, List.length_drop]
  omega

theorem c_string_take_length (r : List UInt8) (room : Nat) (h : 1 ≤ room) :
    (c_string (r.take (room - 1))).length < room := by
  have := c_string_length_le (r.take (room - 1))
  simp only [List.length_take] at this
  omega

theorem append_errno_string_string (P : Platform) (errnum : Int) (pre post : List UInt8)
    (room : Nat) (h1 : 1 ≤ room) (h2 : room ≤ post.length) (hpre : ∀ x ∈ pre, x ≠ 0)
    (hP : P.code_page_fits) :
    c_string (append_errno_string P (pre ++ post) pre.length room errnum)
      = appended_string P errnum pre room := by
  cases P with
  | HAVE__WCSERROR_S w u use acp =>
    simp only [append_errno_string, appended_string, utf_16le_to_utf_8_truncated,
      utf_8_to_acp_truncated, posix_strerror_r]
    by_cases he : (w errnum).1 ≠ 0
    · rw [if_pos he, if_pos he]
      exact vsnprintf_string pre post _ room h1 h2 hpre
    · rw [if_neg he, if_neg he]
      cases use with
      | true => simpa using vsnprintf_string pre post _ room h1 h2 hpre
      | false =>
        simp only [Bool.not_false, if_true]
        have hstr := vsnprintf_string pre post (u (w errnum).2 room) room h1 h2 hpre
        rw [hstr]
        have hlen := vsnprintf_length (pre ++ post) pre.length room (u (w errnum).2 room)
        have hfit := hP rfl (pre ++ c_string ((u (w errnum).2 room).take (room - 1)))
        have hlt := c_string_take_length (u (w errnum).2 room) room h1
        have hb : (acp (pre ++ c_string ((u (w errnum).2 room).take (room - 1))) ++ [0]).length
            ≤ (vsnprintf (pre ++ post) pre.length room (u (w errnum).2 room)).length := by
          rw [hlen]
          simp only [List.length_append, List.length_singleton] at hfit ⊢
          omega
        have := store_at [] _ _ hb
        simp only [List.nil_append, List.length_nil] at this
        rw [this, List.append_assoc, List.singleton_append, c_string_nul]
  | HAVE_GNU_STRERROR_R f =>
    exact vsnprintf_string pre post _ room h1 h2 hpre
  | HAVE_POSIX_STRERROR_R f EINVAL ERANGE =>
    simp only [append_errno_string, appended_string, utf_16le_to_utf_8_truncated,
      utf_8_to_acp_truncated, posix_strerror_r]
    obtain ⟨post2, e2, l2⟩ := vsnprintf_shape pre post (f errnum room).2 room h1 h2
    by_cases he : (f errnum room).1 = EINVAL
    · rw [if_pos he, if_pos he, e2]
      exact vsnprintf_string pre post2 _ room h1 (by omega) hpre
    · rw [if_neg he, if_neg he]
      by_cases hr : (f errnum room).1 = ERANGE
      · rw [if_pos hr, if_pos hr, e2]
        exact vsnprintf_string pre post2 _ room h1 (by omega) hpre
      · rw [if_neg hr, if_neg hr]
        exact vsnprintf_string pre post _ room h1 h2 hpre
  | NEITHER f =>
    exact vsnprintf_string pre post _ room h1 h2 hpre

theorem appended_string_length (P : Platform) (errnum : Int) (pre : List UInt8)
    (room : Nat) (h1 : 1 ≤ room) (hP : P.code_page_fits) :
    (appended_string P errnum pre room).length < pre.length + room := by
  cases P with
  | HAVE__WCSERROR_S w u use acp =>
    simp only [appended_string]
    have hlt1 := c_string_take_length (vformat "Error %d".toList [FmtArg.int errnum]) room h1
    have hlt2 := c_string_take_length (u (w errnum).2 room) room h1
    have hcs := c_string_length_le
      (acp (pre ++ c_string ((u (w errnum).2 room).take (room - 1))))
    split
    · simp only [List.length_append]; omega
    · cases use with
      | true =>
        simp only [Bool.not_true, Bool.false_eq_true, if_false, List.length_append]
        omega
      | false =>
        have hfit := hP rfl (pre ++ c_string ((u (w errnum).2 room).take (room - 1)))
        simp only [List.length_append] at hfit
        simp only [Bool.not_false, if_true]
        omega
  | HAVE_GNU_STRERROR_R f =>
    have := c_string_take_length (vformat "%s".toList [FmtArg.str (f errnum)]) room h1
    simp only [appended_string, List.length_append]; omega
  | HAVE_POSIX_STRERROR_R f EINVAL ERANGE =>
    have hlt1 := c_string_take_length
      (vformat "Unknown error: %d".toList [FmtArg.int errnum]) room h1
    have hlt2 := c_string_take_length
      (vformat "Message for error %d is too long".toList [FmtArg.int errnum]) room h1
    have hlt3 := c_string_take_length (f errnum room).2 room h1
    simp only [appended_string]
    split
    · simp only [List.length_append]; omega
    · split
      · simp only [List.length_append]; omega
      · simp only [List.length_append]; omega
  | NEITHER f =>
    have := c_string_take_length (vformat "%s".toList [FmtArg.str (f errnum)]) room h1
    simp only [appended_string, List.length_append]; omega

theorem append_errno_string_length (P : Platform) (errnum : Int) (mem : Mem) (p room : Nat) :
    (append_errno_string P mem p room errnum).length = mem.length := by
  cases P with
  | HAVE__WCSERROR_S w u use acp =>
    simp only [append_errno_string, utf_16le_to_utf_8_truncated, utf_8_to_acp_truncated,
      posix_strerror_r]
    split
    · exact vsnprintf_length _ _ _ _
    · split
      · rw [store_length, vsnprintf_length]
      · exact vsnprintf_length _ _ _ _
  | HAVE_GNU_STRERROR_R f => exact vsnprintf_length _ _ _ _
  | HAVE_POSIX_STRERROR_R f EINVAL ERANGE =>
    simp only [append_errno_string, utf_16le_to_utf_8_truncated, utf_8_to_acp_truncated,
      posix_strerror_r]
    split
    · rw [vsnprintf_length, vsnprintf_length]
    · split
      · rw [vsnprintf_length, vsnprintf_length]
      · exact vsnprintf_length _ _ _ _
  | NEITHER f => exact vsnprintf_length _ _ _ _

theorem append_errno_string_drop (P : Platform) (errnum : Int) (pre post : List UInt8)
    (room k : Nat) (h1 : 1 ≤ room) (h2 : room ≤ post.length) (hpre : ∀ x ∈ pre, x ≠ 0)
    (hP : P.code_page_fits) (hk : pre.length + room ≤ k) :
    (append_errno_string P (pre ++ post) pre.length room errnum).drop k
      = (pre ++ post).drop k := by
  cases P with
  | HAVE__WCSERROR_S w u use acp =>
    simp only [append_errno_string, utf_16le_to_utf_8_truncated, utf_8_to_acp_truncated,
      posix_strerror_r]
    split
    · exact vsnprintf_drop _ _ _ _ _ hk
    · cases use with
      | true =>
        simp only [Bool.not_true, Bool.false_eq_true, if_false]
        exact vsnprintf_drop _ _ _ _ _ hk
      | false =>
        simp only [Bool.not_false, if_true]
        have hstr := vsnprintf_string pre post (u (w errnum).2 room) room h1 h2 hpre
        have hfit := hP rfl (pre ++ c_string ((u (w errnum).2 room).take (room - 1)))
        have hlt := c_string_take_length (u (w errnum).2 room) room h1
        rw [hstr, store_drop, vsnprintf_drop _ _ _ _ _ hk]
        simp only [List.length_append, List.length_singleton] at hfit ⊢
        omega
  | HAVE_GNU_STRERROR_R f => exact vsnprintf_drop _ _ _ _ _ hk
  | HAVE_POSIX_STRERROR_R f EINVAL ERANGE =>
    simp only [append_errno_string, utf_16le_to_utf_8_truncated, utf_8_to_acp_truncated,
      posix_strerror_r]
    split
    · rw [vsnprintf_drop _ _ _ _ _ hk, vsnprintf_drop _ _ _ _ _ hk]
    · split
      · rw [vsnprintf_drop _ _ _ _ _ hk, vsnprintf_drop _ _ _ _ _ hk]
      · exact vsnprintf_drop _ _ _ _ _ hk
  | NEITHER f => exact vsnprintf_drop _ _ _ _ _ hk

/-! ## The whole routine -/

theorem pcap_early (P : Platform) (errbuf : Mem) (c : Nat) (errnum : Int) (r : List UInt8)
    (h1 : 1 ≤ c) (h2 : c ≤ errbuf.length) (hL : errbuf.length ≤ PTRDIFF_MAX)
    (h : c < (stored_primary c r).length + 3) :
    pcap_vfmt_errmsg_for_errno P errbuf c errnum r = vsnprintf errbuf 0 c r := by
  simp only [pcap_vfmt_errmsg_for_errno, format_and_delimit_early errbuf c r h1 h2 hL h]

theorem pcap_room (P : Platform) (errbuf : Mem) (c : Nat) (errnum : Int) (r : List UInt8)
    (h2 : c ≤ errbuf.length) (hL : errbuf.length ≤ PTRDIFF_MAX)
    (h : (stored_primary c r).length + 3 ≤ c) :
    ∃ post : List UInt8,
      pcap_vfmt_errmsg_for_errno P errbuf c errnum r
        = append_errno_string P ((stored_primary c r ++ [58, 32]) ++ post)
            (stored_primary c r ++ [58, 32]).length (c - (stored_primary c r).length - 2) errnum
      ∧ format_and_delimit errbuf c r
        = ((stored_primary c r ++ [58, 32]) ++ post,
            some ((stored_primary c r ++ [58, 32]).length, c - (stored_primary c r).length - 2))
      ∧ c - (stored_primary c r).length - 2 ≤ post.length
      ∧ ((stored_primary c r ++ [58, 32]) ++ post).length = errbuf.length
      ∧ ((stored_primary c r ++ [58, 32]) ++ post).drop c = errbuf.drop c := by
  obtain ⟨post, e, hl, hd⟩ := format_and_delimit_room errbuf c r h2 hL h
  refine ⟨post, ?_, e, ?_, hl, hd⟩
  · simp only [pcap_vfmt_errmsg_for_errno, e]
  · simp only [List.length_append, List.length_cons, List.length_nil] at hl
    omega

theorem delimited_nonul (c : Nat) (r : List UInt8) :
    ∀ x ∈ stored_primary c r ++ [58, 32], x ≠ 0 := by
  intro x hx
  rcases List.mem_append.mp hx with h | h
  · exact stored_primary_nonul c r x h
  · simp only [List.mem_cons, List.mem_singleton, List.not_mem_nil, or_false] at h
    rcases h with h | h <;> subst h <;> decide

theorem pcap_string (P : Platform) (errbuf : Mem) (c : Nat) (errnum : Int) (r : List UInt8)
    (h2 : c ≤ errbuf.length) (hL : errbuf.length ≤ PTRDIFF_MAX)
    (h : (stored_primary c r).length + 3 ≤ c) (hP : P.code_page_fits) :
    c_string (pcap_vfmt_errmsg_for_errno P errbuf c errnum r)
      = appended_string P errnum (stored_primary c r ++ [58, 32])
          (c - (stored_primary c r).length - 2) := by
  obtain ⟨post, e, _, hroom, _, _⟩ := pcap_room P errbuf c errnum r h2 hL h
  rw [e]
  exact append_errno_string_string P errnum _ post _ (by omega) hroom (delimited_nonul c r) hP

theorem pcap_length (P : Platform) (errbuf : Mem) (c : Nat) (errnum : Int) (r : List UInt8) :
    (pcap_vfmt_errmsg_for_errno P errbuf c errnum r).length = errbuf.length := by
  have hv := vsnprintf_length errbuf 0 c r
  simp only [pcap_vfmt_errmsg_for_errno, format_and_delimit]
  split
  · rename_i m heq
    split at heq
    · cases heq; exact hv
    · cases heq
  · rename_i m p room heq
    split at heq
    · cases heq
    · cases heq
      rw [append_errno_string_length]
      simp [hv]

theorem pcap_drop (P : Platform) (errbuf : Mem) (c : Nat) (errnum : Int) (r : List UInt8)
    (h1 : 1 ≤ c) (h2 : c ≤ errbuf.length) (hL : errbuf.length ≤ PTRDIFF_MAX)
    (hP : P.code_page_fits) :
    (pcap_vfmt_errmsg_for_errno P errbuf c errnum r).drop c = errbuf.drop c := by
  by_cases h : c < (stored_primary c r).length + 3
  · rw [pcap_early P errbuf c errnum r h1 h2 hL h]
    exact vsnprintf_drop errbuf 0 c c r (by omega)
  · obtain ⟨post, e, _, hroom, _, hd⟩ := pcap_room P errbuf c errnum r h2 hL (by omega)
    rw [e, ← hd]
    apply append_errno_string_drop P errnum _ post _ c (by omega) hroom (delimited_nonul c r) hP
    simp only [List.length_append, List.length_cons, List.length_nil]
    omega

theorem pcap_strlen_lt (P : Platform) (errbuf : Mem) (c : Nat) (errnum : Int) (r : List UInt8)
    (h1 : 1 ≤ c) (h2 : c ≤ errbuf.length) (hL : errbuf.length ≤ PTRDIFF_MAX)
    (hP : P.code_page_fits) :
    strlen (pcap_vfmt_errmsg_for_errno P errbuf c errnum r) < c := by
  by_cases h : c < (stored_primary c r).length + 3
  · rw [pcap_early P errbuf c errnum r h1 h2 hL h, strlen, vsnprintf_primary errbuf c r h1 h2]
    exact stored_primary_length_lt c r h1
  · rw [strlen, pcap_string P errbuf c errnum r h2 hL (by omega) hP]
    have := appended_string_length P errnum (stored_primary c r ++ [58, 32])
      (c - (stored_primary c r).length - 2) (by omega) hP
    simp only [List.length_append, List.length_cons, List.length_nil] at this
    omega

theorem nul_at_strlen (mem : Mem) (h : strlen mem < mem.length) :
    mem[strlen mem]? = some 0 := by
  have hs := mem_split mem h
  have : (c_string mem ++ 0 :: mem.drop (strlen mem + 1))[strlen mem]? = some 0 := by
    rw [List.getElem?_append_right (by simp [strlen])]
    simp [strlen]
  rw [← hs] at this
  exact this

/-! ## Formats used by the routine -/

theorem vformat_s (t : List UInt8) : vformat "%s".toList [FmtArg.str t] = c_string t := by
  have : vformat "%s".toList [FmtArg.str t] = c_string t ++ [] := rfl
  rw [this, List.append_nil]

theorem vformat_unknown (n : Int) :
    vformat "Unknown error: %d".toList [FmtArg.int n] = ascii "Unknown error: " ++ fmt_d n := by
  have : vformat "Unknown error: %d".toList [FmtArg.int n]
      = ascii "Unknown error: " ++ (fmt_d n ++ []) := rfl
  rw [this, List.append_nil]

theorem vformat_too_long (n : Int) :
    vformat "Message for error %d is too long".toList [FmtArg.int n]
      = ascii "Message for error " ++ fmt_d n ++ ascii " is too long" := by
  have : vformat "Message for error %d is too long".toList [FmtArg.int n]
      = ascii "Message for error " ++ (fmt_d n ++ ascii " is too long") := rfl
  rw [this, List.append_assoc]

theorem digit_ne_zero (d : Nat) : digit d ≠ 0 := by
  have h : ∀ k, k < 10 → (48 + k).toUInt8 ≠ 0 := by decide
  exact h (d % 10) (Nat.mod_lt d (by decide))

theorem dec_digits_nonul : ∀ (fuel n : Nat), ∀ x ∈ dec_digits fuel n, x ≠ 0 := by
  intro fuel
  induction fuel with
  | zero => intro n x hx; simp [dec_digits] at hx
  | succ fuel ih =>
    intro n x hx
    simp only [dec_digits] at hx
    split at hx
    · simp only [List.mem_singleton] at hx
      subst hx; exact digit_ne_zero n
    · rcases List.mem_append.mp hx with h | h
      · exact ih _ x h
      · simp only [List.mem_singleton] at h
        subst h; exact digit_ne_zero n

theorem fmt_d_nonul (n : Int) : ∀ x ∈ fmt_d n, x ≠ 0 := by
  intro x hx
  unfold fmt_d at hx
  split at hx
  · rcases List.mem_cons.mp hx with h | h
    · subst h; decide
    · exact dec_digits_nonul _ _ x h
  · exact dec_digits_nonul _ _ x hx

theorem take_nonul (k : Nat) (a : List UInt8) (ha : ∀ x ∈ a, x ≠ 0) :
    ∀ x ∈ a.take k, x ≠ 0 :=
  fun x hx => ha x (List.mem_of_mem_take hx)

theorem append_nonul (a b : List UInt8) (ha : ∀ x ∈ a, x ≠ 0) (hb : ∀ x ∈ b, x ≠ 0) :
    ∀ x ∈ a ++ b, x ≠ 0 := by
  intro x hx
  rcases List.mem_append.mp hx with h | h
  · exact ha x h
  · exact hb x h

theorem stored_primary_of_nonul (c : Nat) (r : List UInt8) (hr : ∀ x ∈ r, x ≠ 0) :
    stored_primary c r = r.take (c - 1) :=
  c_string_of_nonul _ (take_nonul _ r hr)

theorem utf8_valid_append (a b : List UInt8) (ha : utf8_valid a = true)
    (hb : utf8_valid b = true) : utf8_valid (a ++ b) = true := by
  simp only [utf8_valid, decide_eq_true_eq] at *
  rw [List.foldl_append, ha, hb]

/-- The final string in the builds that copy a returned text. -/
theorem returned_text_string (P : Platform) (f : Int → List UInt8)
    (hf : P.returned_text = some f) (errnum : Int) (pre : List UInt8) (room : Nat) :
    appended_string P errnum pre room = pre ++ (c_string (f errnum)).take (room - 1) := by
  cases P with
  | HAVE__WCSERROR_S w u use acp => simp [Platform.returned_text] at hf
  | HAVE_GNU_STRERROR_R g =>
    simp only [Platform.returned_text, Option.some.injEq] at hf
    subst hf
    simp only [appended_string, vformat_s]
    rw [c_string_of_nonul _ (take_nonul _ _ (c_string_nonul _))]
  | HAVE_POSIX_STRERROR_R g e1 e2 => simp [Platform.returned_text] at hf
  | NEITHER g =>
    simp only [Platform.returned_text, Option.some.injEq] at hf
    subst hf
    simp only [appended_string, vformat_s]
    rw [c_string_of_nonul _ (take_nonul _ _ (c_string_nonul _))]

theorem returned_text_fits (P : Platform) (f : Int → List UInt8)
    (hf : P.returned_text = some f) : P.code_page_fits := by
  cases P with
  | HAVE__WCSERROR_S w u use acp => simp [Platform.returned_text] at hf
  | HAVE_GNU_STRERROR_R g => trivial
  | HAVE_POSIX_STRERROR_R g e1 e2 => trivial
  | NEITHER g => trivial

theorem ascii_delimiter : ascii ": " = [58, 32] := by decide

theorem format_and_delimit_sizes (errbuf : Mem) (c : Nat) (r : List UInt8) :
    format_and_delimit errbuf c r
      = match delimiter_sizes (strlen (vsnprintf errbuf 0 c r)) c with
        | none => (vsnprintf errbuf 0 c r, none)
        | some pr => (store (vsnprintf errbuf 0 c r) (strlen (vsnprintf errbuf 0 c r))
            [58, 32, 0], some pr) := by
  by_cases h : size_add (strlen (vsnprintf errbuf 0 c r)) 3 > c
  · simp only [format_and_delimit, delimiter_sizes, if_pos h]
  · simp only [format_and_delimit, delimiter_sizes, if_neg h]
    rfl

/-- The final string in the builds that copy a returned text, when the delimiter fits. -/
theorem returned_text_final (P : Platform) (f : Int → List UInt8)
    (hf : P.returned_text = some f) (errbuf : Mem) (c : Nat) (errnum : Int) (r : List UInt8)
    (hbuf : c ≤ errbuf.length) (hobj : errbuf.length ≤ PTRDIFF_MAX)
    (hm : (stored_primary c r).length + 3 ≤ c) :
    c_string (pcap_vfmt_errmsg_for_errno P errbuf c errnum r)
      = stored_primary c r ++ ascii ": "
          ++ (c_string (f errnum)).take (c - (stored_primary c r).length - 3) := by
  rw [pcap_string P errbuf c errnum r hbuf hobj hm (returned_text_fits P f hf),
    returned_text_string P f hf, ascii_delimiter]
  have : c - (stored_primary c r).length - 2 - 1 = c - (stored_primary c r).length - 3 := by
    omega
  rw [this]

theorem stored_primary_fits (c : Nat) (r : List UInt8) (hr : ∀ x ∈ r, x ≠ 0)
    (h : r.length < c) : stored_primary c r = r := by
  rw [stored_primary_of_nonul c r hr]
  exact List.take_of_length_le (by omega)

theorem take_min_length (a : List UInt8) (k : Nat) : a.take (min a.length k) = a.take k := by
  rcases Nat.le_total a.length k with h | h
  · rw [Nat.min_eq_left h, List.take_of_length_le (Nat.le_refl _), List.take_of_length_le h]
  · rw [Nat.min_eq_right h]

theorem ascii_unknown_nonul : ∀ x ∈ ascii "Unknown error: ", x ≠ 0 := by decide

theorem ascii_message_nonul : ∀ x ∈ ascii "Message for error ", x ≠ 0 := by decide

theorem ascii_too_long_nonul : ∀ x ∈ ascii " is too long", x ≠ 0 := by decide

/-- The bytes a block store leaves at the offsets it covers. -/
theorem store_three_get (mem : Mem) (off : Nat) (a b d : UInt8) (h : off + 3 ≤ mem.length) :
    (store mem off [a, b, d])[off]? = some a
    ∧ (store mem off [a, b, d])[off + 1]? = some b
    ∧ (store mem off [a, b, d])[off + 2]? = some d := by
  have hpre : (mem.take off).length = off := by
    rw [List.length_take]; omega
  have hpost : ([a, b, d] : List UInt8).length ≤ (mem.drop off).length := by
    simp only [List.length_cons, List.length_nil, List.length_drop]; omega
  have e := store_at (mem.take off) (mem.drop off) [a, b, d] hpost
  rw [List.take_append_drop, hpre] at e
  rw [e]
  refine ⟨?_, ?_, ?_⟩
  · rw [List.getElem?_append_right (by omega)]
    simp [hpre]
  · rw [List.getElem?_append_right (by omega)]
    simp [hpre]
  · rw [List.getElem?_append_right (by omega)]
    simp [hpre]

/-! ## The claims -/

/-- C1: for every capacity `c ≥ 1`, every rendering of the primary message, every
error code and every build configuration (the code-page conversion, which is not
told the capacity, being assumed not to lengthen the text), after
`pcap_vfmt_errmsg_for_errno` the buffer holds a NUL at an index below `c`, so a
string of length below `c`; the region keeps its size and no byte at an index
`≥ c` is changed, on the early-return path and on the appending path alike. -/
theorem C1_terminated_within_capacity (P : Platform) (errbuf : Mem) (c : Nat) (errnum : Int)
    (r : List UInt8) (hc : 1 ≤ c) (hbuf : c ≤ errbuf.length)
    (hobj : errbuf.length ≤ PTRDIFF_MAX) (hP : P.code_page_fits) :
    (∃ i, i < c ∧ (pcap_vfmt_errmsg_for_errno P errbuf c errnum r)[i]? = some 0)
    ∧ strlen (pcap_vfmt_errmsg_for_errno P errbuf c errnum r) < c
    ∧ (pcap_vfmt_errmsg_for_errno P errbuf c errnum r).length = errbuf.length
    ∧ (pcap_vfmt_errmsg_for_errno P errbuf c errnum r).drop c = errbuf.drop c := by
  have hlt := pcap_strlen_lt P errbuf c errnum r hc hbuf hobj hP
  have hlen := pcap_length P errbuf c errnum r
  refine ⟨⟨_, hlt, nul_at_strlen _ (by omega)⟩, hlt, hlen, ?_⟩
  exact pcap_drop P errbuf c errnum r hc hbuf hobj hP

/-- C1 at capacity 24 in a 30-byte region, Windows-style build in code-page mode. -/
theorem C1_terminated_within_capacity_witness :
    (1 ≤ 24 ∧ 24 ≤ (sample_buffer 30).length ∧ (sample_buffer 30).length ≤ PTRDIFF_MAX
      ∧ sample_windows.code_page_fits)
    ∧ ((∃ i, i < 24 ∧
          (pcap_vfmt_errmsg_for_errno sample_windows (sample_buffer 30) 24 2 sample_message)[i]?
            = some 0)
      ∧ strlen (pcap_vfmt_errmsg_for_errno sample_windows (sample_buffer 30) 24 2
          sample_message) < 24
      ∧ (pcap_vfmt_errmsg_for_errno sample_windows (sample_buffer 30) 24 2
          sample_message).length = (sample_buffer 30).length
      ∧ (pcap_vfmt_errmsg_for_errno sample_windows (sample_buffer 30) 24 2
          sample_message).drop 24 = (sample_buffer 30).drop 24) :=
  ⟨⟨by decide, by decide, by decide, fun _ s => Nat.le_refl s.length⟩,
    C1_terminated_within_capacity sample_windows (sample_buffer 30) 24 2 sample_message
      (by decide) (by decide) (by decide) (fun _ s => Nat.le_refl s.length)⟩

/-- C2: for every capacity `c ≥ 1` and every rendering of the primary message (a
C string, so free of NUL) of length `m` with `m + 3 > c`, for every error code
and build the routine leaves the buffer exactly as the bounded formatter
produced it, and the final string is the first `min m (c - 1)` bytes of the
rendering: no delimiter and no error text. -/
theorem C2_no_room_keeps_primary (P : Platform) (errbuf : Mem) (c : Nat) (errnum : Int)
    (r : List UInt8) (hc : 1 ≤ c) (hbuf : c ≤ errbuf.length)
    (hobj : errbuf.length ≤ PTRDIFF_MAX) (hr : ∀ x ∈ r, x ≠ 0) (hm : r.length + 3 > c) :
    pcap_vfmt_errmsg_for_errno P errbuf c errnum r = vsnprintf errbuf 0 c r
    ∧ c_string (pcap_vfmt_errmsg_for_errno P errbuf c errnum r)
        = r.take (min r.length (c - 1)) := by
  have hsp := stored_primary_of_nonul c r hr
  have hearly : c < (stored_primary c r).length + 3 := by
    rw [hsp, List.length_take]; omega
  have e := pcap_early P errbuf c errnum r hc hbuf hobj hearly
  refine ⟨e, ?_⟩
  rw [e, vsnprintf_primary errbuf c r hc hbuf, hsp]
  rcases Nat.le_total r.length (c - 1) with h | h
  · rw [Nat.min_eq_left h, List.take_of_length_le h, List.take_of_length_le (Nat.le_refl _)]
  · rw [Nat.min_eq_right h]

/-- C2 at capacity 10 with `cannot open foo.txt`: the buffer holds `cannot op`. -/
theorem C2_no_room_keeps_primary_witness :
    (1 ≤ 10 ∧ 10 ≤ (sample_buffer 10).length ∧ (sample_buffer 10).length ≤ PTRDIFF_MAX
      ∧ (∀ x ∈ sample_message, x ≠ 0) ∧ sample_message.length + 3 > 10)
    ∧ pcap_vfmt_errmsg_for_errno sample_gnu (sample_buffer 10) 10 2 sample_message
        = ascii "cannot op" ++ [0]
    ∧ c_string (pcap_vfmt_errmsg_for_errno sample_gnu (sample_buffer 10) 10 2 sample_message)
        = ascii "cannot op" :=
  ⟨⟨by decide, by decide, by decide, by decide, by decide⟩,
    (C2_no_room_keeps_primary sample_gnu (sample_buffer 10) 10 2 sample_message
      (by decide) (by decide) (by decide) (by decide) (by decide)).1.trans (by decide),
    (C2_no_room_keeps_primary sample_gnu (sample_buffer 10) 10 2 sample_message
      (by decide) (by decide) (by decide) (by decide) (by decide)).2.trans (by decide)⟩

/-- C4: for capacity `0`, for every content of the buffer, every rendering, every
error code and every build, the routine stores nothing: the memory after the call
is the memory before it, and the routine returns before the delimiter. -/
theorem C4_zero_capacity_untouched (P : Platform) (errbuf : Mem) (errnum : Int)
    (r : List UInt8) (hobj : errbuf.length ≤ PTRDIFF_MAX) :
    pcap_vfmt_errmsg_for_errno P errbuf 0 errnum r = errbuf
    ∧ format_and_delimit errbuf 0 r = (errbuf, none) := by
  have e := format_and_delimit_zero errbuf r hobj
  refine ⟨?_, e⟩
  simp only [pcap_vfmt_errmsg_for_errno, e]

/-- C4 on a 6-byte buffer that holds no NUL. -/
theorem C4_zero_capacity_untouched_witness :
    (sample_buffer 6).length ≤ PTRDIFF_MAX
    ∧ pcap_vfmt_errmsg_for_errno sample_gnu (sample_buffer 6) 0 2 sample_message
        = sample_buffer 6
    ∧ format_and_delimit (sample_buffer 6) 0 sample_message = (sample_buffer 6, none) :=
  ⟨by decide, C4_zero_capacity_untouched sample_gnu (sample_buffer 6) 2 sample_message
    (by decide)⟩

/-- C8: the routine is a function of its inputs (build, buffer, capacity, error
code, rendering): calls on equal buffers leave equal buffers; and for capacity
`c ≥ 1` the final string does not depend on what the buffer held before. -/
theorem C8_deterministic (P : Platform) (c : Nat) (errnum : Int) (r : List UInt8)
    (b1 b2 : Mem) (hc : 1 ≤ c) (h1 : c ≤ b1.length) (h2 : c ≤ b2.length)
    (hobj1 : b1.length ≤ PTRDIFF_MAX) (hobj2 : b2.length ≤ PTRDIFF_MAX)
    (hP : P.code_page_fits) :
    (∀ (k : Nat) (a1 a2 : Mem), a1 = a2 →
        pcap_vfmt_errmsg_for_errno P a1 k errnum r = pcap_vfmt_errmsg_for_errno P a2 k errnum r)
    ∧ c_string (pcap_vfmt_errmsg_for_errno P b1 c errnum r)
        = c_string (pcap_vfmt_errmsg_for_errno P b2 c errnum r) := by
  refine ⟨fun k a1 a2 h => by rw [h], ?_⟩
  by_cases h : c < (stored_primary c r).length + 3
  · rw [pcap_early P b1 c errnum r hc h1 hobj1 h, pcap_early P b2 c errnum r hc h2 hobj2 h,
      vsnprintf_primary b1 c r hc h1, vsnprintf_primary b2 c r hc h2]
  · rw [pcap_string P b1 c errnum r h1 hobj1 (by omega) hP,
      pcap_string P b2 c errnum r h2 hobj2 (by omega) hP]

/-- C8 on two buffers of different size and content. -/
theorem C8_deterministic_witness :
    (1 ≤ 24 ∧ 24 ≤ (sample_buffer 30).length ∧ 24 ≤ (List.replicate 24 (0 : UInt8)).length
      ∧ (sample_buffer 30).length ≤ PTRDIFF_MAX
      ∧ (List.replicate 24 (0 : UInt8)).length ≤ PTRDIFF_MAX ∧ sample_windows.code_page_fits)
    ∧ c_string (pcap_vfmt_errmsg_for_errno sample_windows (sample_buffer 30) 24 2
          sample_message)
        = c_string (pcap_vfmt_errmsg_for_errno sample_windows (List.replicate 24 0) 24 2
          sample_message) :=
  ⟨⟨by decide, by decide, by decide, by decide, by decide, fun _ s => Nat.le_refl s.length⟩,
    (C8_deterministic sample_windows 24 2 sample_message (sample_buffer 30)
      (List.replicate 24 0) (by decide) (by decide) (by decide) (by decide) (by decide)
      (fun _ s => Nat.le_refl s.length)).2⟩

/-- C3 (counterexample): with capacity 4 and the one-byte message `a`, so that
`m + 3 ≤ c`, and a non-empty platform text, nothing follows the delimiter. -/
theorem C3_counterexample_empty_text :
    (ascii "a").length + 3 ≤ 4
    ∧ c_string (ascii "No such file or directory") ≠ []
    ∧ c_string (pcap_vfmt_errmsg_for_errno sample_gnu (sample_buffer 4) 4 2 (ascii "a"))
        = ascii "a" ++ ascii ": "
    ∧ ¬ ∃ X : List UInt8, X ≠ [] ∧
        c_string (pcap_vfmt_errmsg_for_errno sample_gnu (sample_buffer 4) 4 2 (ascii "a"))
          = ascii "a" ++ ascii ": " ++ X := by
  have e : c_string (pcap_vfmt_errmsg_for_errno sample_gnu (sample_buffer 4) 4 2 (ascii "a"))
      = ascii "a" ++ ascii ": " := by decide
  refine ⟨by decide, by decide, e, ?_⟩
  rintro ⟨X, hX, h⟩
  rw [e] at h
  exact hX (List.self_eq_append_right.mp h)

/-- C3 (amended): in the builds that copy a returned text, for every capacity `c`
and every rendering (free of NUL) of length `m` with `m + 3 ≤ c`, the final string
is the primary message, then `: `, then the first `c - m - 3` bytes of the
platform text, then a NUL, and its length is below `c`; the text after the
delimiter is non-empty when the platform text is non-empty and `m + 4 ≤ c`, and
for `m + 3 = c` nothing follows the delimiter. -/
theorem C3_delimiter_then_text (P : Platform) (f : Int → List UInt8)
    (hf : P.returned_text = some f) (errbuf : Mem) (c : Nat) (errnum : Int) (r : List UInt8)
    (hbuf : c ≤ errbuf.length) (hobj : errbuf.length ≤ PTRDIFF_MAX)
    (hr : ∀ x ∈ r, x ≠ 0) (hm : r.length + 3 ≤ c) :
    c_string (pcap_vfmt_errmsg_for_errno P errbuf c errnum r)
        = r ++ ascii ": " ++ (c_string (f errnum)).take (c - r.length - 3)
    ∧ strlen (pcap_vfmt_errmsg_for_errno P errbuf c errnum r) < c
    ∧ (pcap_vfmt_errmsg_for_errno P errbuf c errnum r)[strlen
        (pcap_vfmt_errmsg_for_errno P errbuf c errnum r)]? = some 0
    ∧ (c_string (f errnum) ≠ [] → r.length + 4 ≤ c →
        (c_string (f errnum)).take (c - r.length - 3) ≠ [])
    ∧ (r.length + 3 = c →
        c_string (pcap_vfmt_errmsg_for_errno P errbuf c errnum r) = r ++ ascii ": ") := by
  have hsp := stored_primary_fits c r hr (by omega)
  have hfin := returned_text_final P f hf errbuf c errnum r hbuf hobj (by rw [hsp]; exact hm)
  rw [hsp] at hfin
  have hlt := pcap_strlen_lt P errbuf c errnum r (by omega) hbuf hobj (returned_text_fits P f hf)
  have hlen := pcap_length P errbuf c errnum r
  refine ⟨hfin, hlt, nul_at_strlen _ (by omega), ?_, ?_⟩
  · intro ht hc hnil
    have := congrArg List.length hnil
    simp only [List.length_take, List.length_nil] at this
    have hpos : 0 < (c_string (f errnum)).length := List.length_pos.mpr ht
    omega
  · intro hc
    rw [hfin]
    have : c - r.length - 3 = 0 := by omega
    rw [this, List.take_zero, List.append_nil]

/-- C3 (amended) at capacity 12 with the message `abc`. -/
theorem C3_delimiter_then_text_witness :
    (sample_gnu.returned_text = some (fun _ => ascii "No such file or directory")
      ∧ 12 ≤ (sample_buffer 12).length ∧ (sample_buffer 12).length ≤ PTRDIFF_MAX
      ∧ (∀ x ∈ ascii "abc", x ≠ 0) ∧ (ascii "abc").length + 3 ≤ 12)
    ∧ c_string (pcap_vfmt_errmsg_for_errno sample_gnu (sample_buffer 12) 12 2 (ascii "abc"))
        = ascii "abc: No suc" :=
  ⟨⟨rfl, by decide, by decide, by decide, by decide⟩,
    (C3_delimiter_then_text sample_gnu (fun _ => ascii "No such file or directory") rfl
      (sample_buffer 12) 12 2 (ascii "abc") (by decide) (by decide) (by decide)
      (by decide)).1.trans (by decide)⟩

/-- C5 (counterexample): the primary message `é` (two bytes of UTF-8) in a buffer
of capacity 2 is cut after its first byte, and with capacity 5 after the message
`a` the platform text `Échec` is cut after its first byte; both final strings
are ill-formed UTF-8. -/
theorem C5_counterexample_split_character :
    (utf8_valid [195, 169] = true
      ∧ utf8_valid (c_string (ascii "No such file or directory")) = true
      ∧ c_string (pcap_vfmt_errmsg_for_errno sample_gnu (sample_buffer 2) 2 2 [195, 169])
          = [195]
      ∧ utf8_valid (c_string
          (pcap_vfmt_errmsg_for_errno sample_gnu (sample_buffer 2) 2 2 [195, 169])) = false)
    ∧ (utf8_valid (ascii "a") = true
      ∧ utf8_valid (c_string ([195, 137] ++ ascii "chec")) = true
      ∧ c_string (pcap_vfmt_errmsg_for_errno sample_gnu_accented (sample_buffer 5) 5 2
          (ascii "a")) = ascii "a: " ++ [195]
      ∧ utf8_valid (c_string (pcap_vfmt_errmsg_for_errno sample_gnu_accented (sample_buffer 5)
          5 2 (ascii "a"))) = false) := by
  decide

/-- C5 (amended): in the builds that copy a returned text, for every capacity
`c ≥ 1`, every rendering (free of NUL) that is well-formed UTF-8 and every
platform text that is well-formed UTF-8, the final string is a prefix, cut at a
byte count, of the primary message followed by `: ` and the platform text; it is
well-formed UTF-8 whenever nothing was cut, that is when the primary message is
shorter than `c` and, if the delimiter fits, the whole message is shorter than `c`. -/
theorem C5_utf8_when_not_cut (P : Platform) (f : Int → List UInt8)
    (hf : P.returned_text = some f) (errbuf : Mem) (c : Nat) (errnum : Int) (r : List UInt8)
    (hc : 1 ≤ c) (hbuf : c ≤ errbuf.length) (hobj : errbuf.length ≤ PTRDIFF_MAX)
    (hr : ∀ x ∈ r, x ≠ 0) (hv : utf8_valid r = true)
    (ht : utf8_valid (c_string (f errnum)) = true) :
    c_string (pcap_vfmt_errmsg_for_errno P errbuf c errnum r)
        <+: r ++ ascii ": " ++ c_string (f errnum)
    ∧ (r.length < c → (r.length + 3 ≤ c → r.length + 2 + (c_string (f errnum)).length < c) →
        utf8_valid (c_string (pcap_vfmt_errmsg_for_errno P errbuf c errnum r)) = true) := by
  have hsp := stored_primary_of_nonul c r hr
  by_cases h : c < (stored_primary c r).length + 3
  · have e : c_string (pcap_vfmt_errmsg_for_errno P errbuf c errnum r) = r.take (c - 1) := by
      rw [pcap_early P errbuf c errnum r hc hbuf hobj h, vsnprintf_primary errbuf c r hc hbuf,
        hsp]
    rw [e]
    refine ⟨?_, ?_⟩
    · rw [List.append_assoc]
      exact (List.take_prefix _ r).trans (List.prefix_append r _)
    · intro hfit _
      rw [List.take_of_length_le (by omega)]
      exact hv
  · have hlen : r.length + 3 ≤ c := by
      rw [hsp, List.length_take] at h
      omega
    have hfit := stored_primary_fits c r hr (by omega)
    have hfin := returned_text_final P f hf errbuf c errnum r hbuf hobj (by omega)
    rw [hfit] at hfin
    rw [hfin]
    refine ⟨?_, ?_⟩
    · exact (List.prefix_append_right_inj _).mpr (List.take_prefix _ _)
    · intro _ hall
      rw [List.take_of_length_le (by have := hall hlen; omega)]
      exact utf8_valid_append _ _ (utf8_valid_append _ _ hv (by decide)) ht

/-- C5 (amended) at capacity 12 with the message `é` and the text `Échec`. -/
theorem C5_utf8_when_not_cut_witness :
    (sample_gnu_accented.returned_text = some (fun _ => [195, 137] ++ ascii "chec")
      ∧ 1 ≤ 12 ∧ 12 ≤ (sample_buffer 12).length ∧ (sample_buffer 12).length ≤ PTRDIFF_MAX
      ∧ (∀ x ∈ ([195, 169] : List UInt8), x ≠ 0) ∧ utf8_valid [195, 169] = true
      ∧ utf8_valid (c_string ([195, 137] ++ ascii "chec")) = true
      ∧ ([195, 169] : List UInt8).length < 12
      ∧ ([195, 169] : List UInt8).length + 2 + (c_string ([195, 137] ++ ascii "chec")).length
          < 12)
    ∧ utf8_valid (c_string (pcap_vfmt_errmsg_for_errno sample_gnu_accented (sample_buffer 12)
        12 2 [195, 169])) = true :=
  ⟨⟨rfl, by decide, by decide, by decide, by decide, by decide, by decide, by decide,
      by decide⟩,
    (C5_utf8_when_not_cut sample_gnu_accented (fun _ => [195, 137] ++ ascii "chec") rfl
      (sample_buffer 12) 12 2 [195, 169] (by decide) (by decide) (by decide) (by decide)
      (by decide) (by decide)).2 (by decide) (fun _ => by decide)⟩

/-- C6: in the POSIX-style build, whenever the delimiter was appended (stored
length `msglen` with `msglen + 3 ≤ c`, so `remaining = c - msglen - 2`): if the
primitive reports `EINVAL` the text after `: ` is the first
`min length (remaining - 1)` bytes of `Unknown error: ` followed by the decimal
error code; if it reports `ERANGE` (and not `EINVAL`), of
`Message for error <N> is too long`; after any other status the text is the
string the primitive wrote. -/
theorem C6_posix_fallback_text (strerror_r : Int → Nat → Int × List UInt8)
    (EINVAL ERANGE : Int) (errbuf : Mem) (c : Nat) (errnum : Int) (r : List UInt8)
    (hbuf : c ≤ errbuf.length) (hobj : errbuf.length ≤ PTRDIFF_MAX)
    (hm : (stored_primary c r).length + 3 ≤ c) :
    ((strerror_r errnum (c - (stored_primary c r).length - 2)).1 = EINVAL →
      c_string (pcap_vfmt_errmsg_for_errno
          (Platform.HAVE_POSIX_STRERROR_R strerror_r EINVAL ERANGE) errbuf c errnum r)
        = stored_primary c r ++ ascii ": "
          ++ (ascii "Unknown error: " ++ fmt_d errnum).take
              (min (ascii "Unknown error: " ++ fmt_d errnum).length
                (c - (stored_primary c r).length - 2 - 1)))
    ∧ ((strerror_r errnum (c - (stored_primary c r).length - 2)).1 ≠ EINVAL →
      (strerror_r errnum (c - (stored_primary c r).length - 2)).1 = ERANGE →
      c_string (pcap_vfmt_errmsg_for_errno
          (Platform.HAVE_POSIX_STRERROR_R strerror_r EINVAL ERANGE) errbuf c errnum r)
        = stored_primary c r ++ ascii ": "
          ++ (ascii "Message for error " ++ fmt_d errnum ++ ascii " is too long").take
              (min (ascii "Message for error " ++ fmt_d errnum ++ ascii " is too long").length
                (c - (stored_primary c r).length - 2 - 1)))
    ∧ ((strerror_r errnum (c - (stored_primary c r).length - 2)).1 ≠ EINVAL →
      (strerror_r errnum (c - (stored_primary c r).length - 2)).1 ≠ ERANGE →
      c_string (pcap_vfmt_errmsg_for_errno
          (Platform.HAVE_POSIX_STRERROR_R strerror_r EINVAL ERANGE) errbuf c errnum r)
        = stored_primary c r ++ ascii ": "
          ++ c_string ((strerror_r errnum (c - (stored_primary c r).length - 2)).2.take
              (c - (stored_primary c r).length - 2 - 1))) := by
  have hs := pcap_string (Platform.HAVE_POSIX_STRERROR_R strerror_r EINVAL ERANGE) errbuf c
    errnum r hbuf hobj hm trivial
  rw [hs, ascii_delimiter]
  simp only [appended_string]
  refine ⟨?_, ?_, ?_⟩
  · intro he
    rw [if_pos he, vformat_unknown, take_min_length,
      c_string_of_nonul _ (take_nonul _ _
        (append_nonul _ _ ascii_unknown_nonul (fmt_d_nonul errnum)))]
  · intro he hr
    rw [if_neg he, if_pos hr, vformat_too_long, take_min_length,
      c_string_of_nonul _ (take_nonul _ _ (append_nonul _ _
        (append_nonul _ _ ascii_message_nonul (fmt_d_nonul errnum)) ascii_too_long_nonul))]
  · intro he hr
    rw [if_neg he, if_neg hr]

/-- C6 at capacity 80 with the message `cannot open foo.txt` and the error code
99999, which the primitive rejects with `EINVAL`: the appended text is
`Unknown error: 99999`. -/
theorem C6_posix_fallback_text_witness :
    (80 ≤ (sample_buffer 80).length ∧ (sample_buffer 80).length ≤ PTRDIFF_MAX
      ∧ (stored_primary 80 sample_message).length + 3 ≤ 80)
    ∧ c_string (pcap_vfmt_errmsg_for_errno sample_posix (sample_buffer 80) 80 99999
        sample_message) = ascii "cannot open foo.txt: " ++ ascii "Unknown error: 99999" :=
  ⟨⟨by decide, by decide, by decide⟩,
    ((C6_posix_fallback_text (fun _ _ => (22, [])) 22 34 (sample_buffer 80) 80 99999
      sample_message (by decide) (by decide) (by decide)).1 rfl).trans (by decide)⟩

/-- C7: for capacity 64 and the format `cannot open %s` with the argument
`foo.txt`, in the builds that copy a returned text and for every non-empty
platform text `t`, the stored length is 19 and the space left is 43 (the copy
starts at offset 21), and the final string is `cannot open foo.txt: ` followed by
the first `min |t| 42` bytes of `t`, which are not empty. -/
theorem C7_cannot_open_scenario (P : Platform) (f : Int → List UInt8)
    (hf : P.returned_text = some f) (errbuf : Mem) (errnum : Int)
    (hbuf : 64 ≤ errbuf.length) (hobj : errbuf.length ≤ PTRDIFF_MAX)
    (ht : c_string (f errnum) ≠ []) :
    c_string (pcap_vfmt_errmsg_for_errno P errbuf 64 errnum sample_message)
        = ascii "cannot open foo.txt: "
          ++ (c_string (f errnum)).take (min (c_string (f errnum)).length 42)
    ∧ (c_string (f errnum)).take (min (c_string (f errnum)).length 42) ≠ []
    ∧ strlen (vsnprintf errbuf 0 64 sample_message) = 19
    ∧ (format_and_delimit errbuf 64 sample_message).2 = some (21, 43) := by
  have hsp : stored_primary 64 sample_message = ascii "cannot open foo.txt" := by decide
  have hm : (stored_primary 64 sample_message).length + 3 ≤ 64 := by rw [hsp]; decide
  have hfin := returned_text_final P f hf errbuf 64 errnum sample_message hbuf hobj hm
  obtain ⟨post, _, efd, _, _, _⟩ := pcap_room P errbuf 64 errnum sample_message hbuf hobj hm
  rw [hsp] at hfin efd
  have h42 : 64 - (ascii "cannot open foo.txt").length - 3 = 42 := by decide
  have hpre : ascii "cannot open foo.txt" ++ ascii ": " = ascii "cannot open foo.txt: " := by
    decide
  rw [h42, hpre] at hfin
  refine ⟨?_, ?_, ?_, ?_⟩
  · rw [hfin, take_min_length]
  · intro hnil
    have := congrArg List.length hnil
    simp only [List.length_take, List.length_nil] at this
    have hpos : 0 < (c_string (f errnum)).length := List.length_pos.mpr ht
    omega
  · rw [strlen, vsnprintf_primary errbuf 64 sample_message (by decide) hbuf, hsp]
    decide
  · rw [efd]
    show some ((ascii "cannot open foo.txt" ++ [58, 32]).length,
      64 - (ascii "cannot open foo.txt").length - 2) = some (21, 43)
    decide

/-- C7 with the text of `ENOENT`. -/
theorem C7_cannot_open_scenario_witness :
    (sample_gnu.returned_text = some (fun _ => ascii "No such file or directory")
      ∧ 64 ≤ (sample_buffer 64).length ∧ (sample_buffer 64).length ≤ PTRDIFF_MAX
      ∧ c_string (ascii "No such file or directory") ≠ [])
    ∧ c_string (pcap_vfmt_errmsg_for_errno sample_gnu (sample_buffer 64) 64 2 sample_message)
        = ascii "cannot open foo.txt: No such file or directory" :=
  ⟨⟨rfl, by decide, by decide, by decide⟩,
    (C7_cannot_open_scenario sample_gnu (fun _ => ascii "No such file or directory") rfl
      (sample_buffer 64) 2 (by decide) (by decide) (by decide)).1.trans (by decide)⟩

/-- C9: in the builds that copy a returned text `t` (GNU-style `strerror_r` and
`pcap_strerror`), for every capacity `c` and every primary message of stored
length `msglen` with `msglen + 3 ≤ c`: the bounded copy is made at offset
`msglen + 2` with room exactly `c - msglen - 2`; the final string is the primary
message, `: `, and the first `min |t| (c - msglen - 3)` bytes of `t`; so it is a
prefix of the untruncated message and its length is
`min (msglen + 2 + |t|) (c - 1)`. -/
theorem C9_remaining_space_and_copy (P : Platform) (f : Int → List UInt8)
    (hf : P.returned_text = some f) (errbuf : Mem) (c : Nat) (errnum : Int) (r : List UInt8)
    (hbuf : c ≤ errbuf.length) (hobj : errbuf.length ≤ PTRDIFF_MAX)
    (hm : (stored_primary c r).length + 3 ≤ c) :
    (format_and_delimit errbuf c r).2
        = some ((stored_primary c r).length + 2, c - (stored_primary c r).length - 2)
    ∧ pcap_vfmt_errmsg_for_errno P errbuf c errnum r
        = vsnprintf (format_and_delimit errbuf c r).1 ((stored_primary c r).length + 2)
            (c - (stored_primary c r).length - 2) (c_string (f errnum))
    ∧ c_string (pcap_vfmt_errmsg_for_errno P errbuf c errnum r)
        = stored_primary c r ++ ascii ": "
          ++ (c_string (f errnum)).take
              (min (c_string (f errnum)).length (c - (stored_primary c r).length - 3))
    ∧ c_string (pcap_vfmt_errmsg_for_errno P errbuf c errnum r)
        <+: stored_primary c r ++ ascii ": " ++ c_string (f errnum)
    ∧ (c_string (pcap_vfmt_errmsg_for_errno P errbuf c errnum r)).length
        = min ((stored_primary c r).length + 2 + (c_string (f errnum)).length) (c - 1) := by
  have hfin := returned_text_final P f hf errbuf c errnum r hbuf hobj hm
  obtain ⟨post, e, efd, _, _, _⟩ := pcap_room P errbuf c errnum r hbuf hobj hm
  have hp : (stored_primary c r ++ [58, 32]).length = (stored_primary c r).length + 2 := by
    simp
  rw [hp] at e efd
  refine ⟨?_, ?_, ?_, ?_, ?_⟩
  · rw [efd]
  · rw [e, efd]
    cases P with
    | HAVE__WCSERROR_S w u use acp => simp [Platform.returned_text] at hf
    | HAVE_GNU_STRERROR_R g =>
      simp only [Platform.returned_text, Option.some.injEq] at hf
      subst hf
      simp only [append_errno_string, vformat_s]
    | HAVE_POSIX_STRERROR_R g e1 e2 => simp [Platform.returned_text] at hf
    | NEITHER g =>
      simp only [Platform.returned_text, Option.some.injEq] at hf
      subst hf
      simp only [append_errno_string, vformat_s]
  · rw [hfin, take_min_length]
  · rw [hfin]
    exact (List.prefix_append_right_inj _).mpr (List.take_prefix _ _)
  · rw [hfin]
    have hd : (ascii ": ").length = 2 := by decide
    simp only [List.length_append, List.length_take, hd]
    omega

/-- C9 at capacity 12 with the message `abcdef`: four bytes of the text fit. -/
theorem C9_remaining_space_and_copy_witness :
    (sample_gnu.returned_text = some (fun _ => ascii "No such file or directory")
      ∧ 12 ≤ (sample_buffer 16).length ∧ (sample_buffer 16).length ≤ PTRDIFF_MAX
      ∧ (stored_primary 12 (ascii "abcdef")).length + 3 ≤ 12)
    ∧ (format_and_delimit (sample_buffer 16) 12 (ascii "abcdef")).2 = some (8, 4)
    ∧ c_string (pcap_vfmt_errmsg_for_errno sample_gnu (sample_buffer 16) 12 2 (ascii "abcdef"))
        = ascii "abcdef: No " :=
  ⟨⟨rfl, by decide, by decide, by decide⟩,
    (C9_remaining_space_and_copy sample_gnu (fun _ => ascii "No such file or directory") rfl
      (sample_buffer 16) 12 2 (ascii "abcdef") (by decide) (by decide) (by decide)).1.trans
      (by decide),
    (C9_remaining_space_and_copy sample_gnu (fun _ => ascii "No such file or directory") rfl
      (sample_buffer 16) 12 2 (ascii "abcdef") (by decide) (by decide)
      (by decide)).2.2.1.trans (by decide)⟩

/-- C10: with sizes in `size_t` (arithmetic modulo `2 ^ 64`), for every capacity
`c ≥ 1` that an object can have (`c ≤ PTRDIFF_MAX`) and every stored length
`msglen < c`: the wrapped test of line 94 decides exactly `msglen + 3 > c`; on
the appending path the indices `msglen`, `msglen + 1`, `msglen + 2` are below
`c` and `errbuflen_remaining` is `c - msglen - 2`, computed without wrapping and
at least 1.  On every buffer of at least `c` bytes the length that `strlen`
finds is below `c`, the routine returns early exactly when `msglen + 3 > c`, and
otherwise it stores `:`, space and NUL at those three indices and hands on the
offset `msglen + 2` with `c - msglen - 2` bytes of room. -/
theorem C10_size_arithmetic (c msglen : Nat) (hc : 1 ≤ c) (hm : msglen < c)
    (hobj : c ≤ PTRDIFF_MAX) :
    (size_add msglen 3 > c ↔ msglen + 3 > c)
    ∧ (msglen + 3 > c → delimiter_sizes msglen c = none)
    ∧ (msglen + 3 ≤ c →
        delimiter_sizes msglen c = some (msglen + 2, c - msglen - 2)
        ∧ msglen + 2 < c ∧ 1 ≤ c - msglen - 2
        ∧ size_sub c msglen = c - msglen
        ∧ size_sub (size_sub c msglen) 2 = c - msglen - 2)
    ∧ (∀ (errbuf : Mem) (r : List UInt8), c ≤ errbuf.length →
        strlen (vsnprintf errbuf 0 c r) < c
        ∧ format_and_delimit errbuf c r
          = (if strlen (vsnprintf errbuf 0 c r) + 3 > c then (vsnprintf errbuf 0 c r, none)
            else (store (vsnprintf errbuf 0 c r) (strlen (vsnprintf errbuf 0 c r)) [58, 32, 0],
              some (strlen (vsnprintf errbuf 0 c r) + 2,
                c - strlen (vsnprintf errbuf 0 c r) - 2)))
        ∧ (strlen (vsnprintf errbuf 0 c r) + 3 ≤ c →
            (format_and_delimit errbuf c r).1[strlen (vsnprintf errbuf 0 c r)]? = some 58
            ∧ (format_and_delimit errbuf c r).1[strlen (vsnprintf errbuf 0 c r) + 1]? = some 32
            ∧ (format_and_delimit errbuf c r).1[strlen (vsnprintf errbuf 0 c r) + 2]? = some 0
            ∧ (format_and_delimit errbuf c r).1.drop c = errbuf.drop c)) := by
  have hsz : c + 2 < SIZE_MOD := by
    simp only [SIZE_MOD, PTRDIFF_MAX] at *
    omega
  have key : ∀ m, m < c →
      size_add m 3 = m + 3 ∧ (m + 3 ≤ c → size_sub c m = c - m
        ∧ size_sub (size_sub c m) 2 = c - m - 2) := by
    intro m hmc
    refine ⟨size_add_small m 3 (by omega), fun h => ?_⟩
    have h1 : size_sub c m = c - m := size_sub_small c m (by omega) (by omega)
    refine ⟨h1, ?_⟩
    rw [h1]
    exact size_sub_small (c - m) 2 (by omega) (by omega)
  obtain ⟨hadd, hsub⟩ := key msglen hm
  refine ⟨by rw [hadd], ?_, ?_, ?_⟩
  · intro h
    simp only [delimiter_sizes, hadd, if_pos h]
  · intro h
    obtain ⟨h1, h2⟩ := hsub h
    refine ⟨?_, by omega, by omega, h1, h2⟩
    simp only [delimiter_sizes, hadd, h2]
    rw [if_neg (by omega)]
  · intro errbuf r hbuf
    have hs : strlen (vsnprintf errbuf 0 c r) = (stored_primary c r).length := by
      rw [strlen, vsnprintf_primary errbuf c r hc hbuf]
    have hlt : strlen (vsnprintf errbuf 0 c r) < c := by
      rw [hs]; exact stored_primary_length_lt c r hc
    obtain ⟨hadd2, hsub2⟩ := key _ hlt
    have hfd : format_and_delimit errbuf c r
        = (if strlen (vsnprintf errbuf 0 c r) + 3 > c then (vsnprintf errbuf 0 c r, none)
          else (store (vsnprintf errbuf 0 c r) (strlen (vsnprintf errbuf 0 c r)) [58, 32, 0],
            some (strlen (vsnprintf errbuf 0 c r) + 2,
              c - strlen (vsnprintf errbuf 0 c r) - 2))) := by
      rw [format_and_delimit_sizes]
      by_cases h : strlen (vsnprintf errbuf 0 c r) + 3 > c
      · simp only [delimiter_sizes, hadd2, if_pos h]
      · obtain ⟨_, h2⟩ := hsub2 (by omega)
        simp only [delimiter_sizes, hadd2, h2, if_neg h]
    refine ⟨hlt, hfd, ?_⟩
    intro hroom
    rw [hfd, if_neg (by omega)]
    have hlen := vsnprintf_length errbuf 0 c r
    obtain ⟨g0, g1, g2⟩ := store_three_get (vsnprintf errbuf 0 c r)
      (strlen (vsnprintf errbuf 0 c r)) 58 32 0 (by omega)
    refine ⟨g0, g1, g2, ?_⟩
    show (store (vsnprintf errbuf 0 c r) (strlen (vsnprintf errbuf 0 c r)) [58, 32, 0]).drop c
      = errbuf.drop c
    rw [store_drop _ _ _ _ (by simp only [List.length_cons, List.length_nil]; omega)]
    exact vsnprintf_drop errbuf 0 c c r (by omega)

/-- C10 at capacity 64 and stored length 19, on a 64-byte buffer with the message
`cannot open foo.txt`. -/
theorem C10_size_arithmetic_witness :
    (1 ≤ 64 ∧ 19 < 64 ∧ 64 ≤ PTRDIFF_MAX)
    ∧ (size_add 19 3 > 64 ↔ 19 + 3 > 64)
    ∧ delimiter_sizes 19 64 = some (19 + 2, 64 - 19 - 2)
    ∧ strlen (vsnprintf (sample_buffer 64) 0 64 sample_message) < 64
    ∧ (format_and_delimit (sample_buffer 64) 64 sample_message).2 = some (21, 43) :=
  ⟨⟨by decide, by decide, by decide⟩,
    (C10_size_arithmetic 64 19 (by decide) (by decide) (by decide)).1,
    ((C10_size_arithmetic 64 19 (by decide) (by decide) (by decide)).2.2.1 (by decide)).1,
    ((C10_size_arithmetic 64 19 (by decide) (by decide) (by decide)).2.2.2
      (sample_buffer 64) sample_message (by decide)).1,
    (congrArg Prod.snd ((C10_size_arithmetic 64 19 (by decide) (by decide) (by decide)).2.2.2
      (sample_buffer 64) sample_message (by decide)).2.1).trans (by decide)⟩

end Fmtutils
